import Mathlib

/-!
Verification of the `koishi-plugin-music-player-ncm` plugin against its
natural-language specification.

The definitions below are a shallow embedding of the TypeScript sources:

* `src/index.ts` — the `ncm_cache` table model, `checkRateLimit`,
  `clearSearchSession`, `getCacheTotalSize`, `cleanOldCache`, the `ncmget`
  command action, the numeric-reply middleware, and `handleSongRequest`;
* `src/service.ts` — the WEAPI request envelope (`weapi`, `aesEncrypt`,
  `rsaEncrypt`, `powMod`).

Byte counts, epoch timestamps and sizes are modelled as `Nat` (JS numbers used
as integers); where JS subtraction can go negative the comparison is performed
over `Int`, matching the source.  Filesystem and database effects are passed in
explicitly (existence predicates, failure oracles, row lists).
-/

namespace MusicPlayerNcm

/-- A row of the `ncm_cache` table (`src/database.ts`).  Optional numeric
fields (`fileSize?`, `cacheTime?`) are modelled as `Nat`; the source reads them
as `c.fileSize || 0` / `c.cacheTime || 0`, so a missing value behaves exactly
like `0`. -/
structure MusicCache where
  id : String
  name : String
  artist : String
  url : String
  cached : Bool
  cachePath : Option String
  fileSize : Nat
  cacheTime : Nat
  bitrate : Nat
deriving DecidableEq, Repr

/-- Sum of `fileSize` over a list of rows, with the source's
`reduce((sum, c) => sum + (c.fileSize || 0), 0)` accumulator shape. -/
def sizeSum (l : List MusicCache) : Nat :=
  l.foldl (fun sum c => sum + c.fileSize) 0

/-- Function `getCacheTotalSize` (`src/index.ts` lines 208–215): query the rows with
`cached: true` and sum their sizes; if the database query throws, the `catch`
returns `0`.  The query result (or its failure) is the `Except` argument. -/
def getCacheTotalSize (dbCached : Except Unit (List MusicCache)) : Nat :=
  match dbCached with
  | .error _ => 0
  | .ok caches => caches.foldl (fun sum c => sum + c.fileSize) 0

/-- The sort order used by `cleanOldCache`:
`caches.sort((a, b) => (a.cacheTime || 0) - (b.cacheTime || 0))`. -/
def byCacheTime (a b : MusicCache) : Prop := a.cacheTime ≤ b.cacheTime

instance : DecidableRel byCacheTime := fun a b => Nat.decLe a.cacheTime b.cacheTime

instance : IsTotal MusicCache byCacheTime := ⟨fun a b => Nat.le_total a.cacheTime b.cacheTime⟩

instance : IsTrans MusicCache byCacheTime := ⟨fun _ _ _ => Nat.le_trans⟩

/-- The eviction loop of `cleanOldCache` (`src/index.ts` lines 225–237).
`evictFails c.id = true` models the `try` block throwing for that row (e.g.
`fs.unlink` failing); the `catch` logs and moves on without adding to
`freedSpace`.  The result is the pair of (rows evicted, in processing order;
rows still unprocessed when the `break` fired). -/
def evictLoop (evictFails : String → Bool) (currentSize requiredSpace maxBytes : Nat) :
    List MusicCache → Nat → List MusicCache × List MusicCache
  | [], _ => ([], [])
  | c :: rest, freedSpace =>
    if (currentSize : Int) - freedSpace + requiredSpace ≤ maxBytes then ([], c :: rest)
    else if evictFails c.id then
      evictLoop evictFails currentSize requiredSpace maxBytes rest freedSpace
    else
      (c :: (evictLoop evictFails currentSize requiredSpace maxBytes rest
          (freedSpace + c.fileSize)).1,
        (evictLoop evictFails currentSize requiredSpace maxBytes rest
          (freedSpace + c.fileSize)).2)

/-- The database update issued for an evicted row:
`{ cached: false, cachePath: null, fileSize: 0 }`. -/
def clearCacheFields (c : MusicCache) : MusicCache :=
  { c with cached := false, cachePath := none, fileSize := 0 }

/-- Observable result of one `cleanOldCache` call: the table afterwards, the
rows evicted in processing order, and the still-cached rows that the loop never
reached because the `break` condition fired. -/
structure CleanResult where
  table : List MusicCache
  evicted : List MusicCache
  remaining : List MusicCache
deriving DecidableEq, Repr

/-- The `caches.sort(...)` step inside `cleanOldCache`: the cached rows in ascending
`cacheTime` order.  (The database query `{ cached: true }` is the filter.) -/
def sortedCaches (rows : List MusicCache) : List MusicCache :=
  List.insertionSort byCacheTime (rows.filter (fun c => c.cached))

/-- Function `cleanOldCache(requiredSpace)` (`src/index.ts` lines 217–238) with a
non-failing database: compute the current total, return unchanged if the
incoming bytes fit, otherwise sort the cached rows oldest-first and run the
eviction loop.  `maxBytes` is the caller's `config.cacheMaxSize * 1024 * 1024`. -/
def cleanOldCache (evictFails : String → Bool) (rows : List MusicCache)
    (requiredSpace maxBytes : Nat) : CleanResult :=
  let currentSize := getCacheTotalSize (.ok (rows.filter (fun c => c.cached)))
  if currentSize + requiredSpace ≤ maxBytes then ⟨rows, [], []⟩
  else
    let p := evictLoop evictFails currentSize requiredSpace maxBytes (sortedCaches rows) 0
    ⟨rows.map (fun r => if p.1.any (fun e => e.id == r.id) then clearCacheFields r else r),
      p.1, p.2⟩

/-- Bytes the sweep can free: sizes of the cached rows whose eviction does not
fail. -/
def evictableBytes (evictFails : String → Bool) (rows : List MusicCache) : Nat :=
  sizeSum ((rows.filter (fun c => c.cached)).filter (fun c => !evictFails c.id))

/-- Observable behaviour of one `cleanOldCache` call when the two database
queries it performs may fail independently. -/
inductive CleanOutcome where
  | noop
  | threw
  | swept (evicted : List MusicCache)
deriving DecidableEq, Repr

/-- Function `cleanOldCache` with explicit results for its two `ctx.database.get`
calls: `db1` feeds `getCacheTotalSize` (whose `catch` turns a failure into
`0`), `db2` is the un-guarded second query (lines 222) whose failure
propagates out of `cleanOldCache`.  Both queries are `{ cached: true }`, so
the lists are the already-filtered cached rows. -/
def cleanOldCacheDb (db1 db2 : Except Unit (List MusicCache))
    (evictFails : String → Bool) (requiredSpace maxBytes : Nat) : CleanOutcome :=
  let currentSize := getCacheTotalSize db1
  if currentSize + requiredSpace ≤ maxBytes then .noop
  else
    match db2 with
    | .error _ => .threw
    | .ok caches =>
      .swept (evictLoop evictFails currentSize requiredSpace maxBytes
        (List.insertionSort byCacheTime caches) 0).1

/-- Function `checkRateLimit` (`src/index.ts` lines 186–194) for one limiter key:
`stored` is `rateLimitMap.get(key)` for that key (`.getD 0` models `|| 0`,
which also collapses a stored `0`), `now` is `Date.now()`.  Returns the gate's
verdict and the key's stored timestamp afterwards: `rateLimitMap.set` runs
only on accept; a rejected call returns `false` before the `set`, and the
caller sends no message to the user on that path. -/
def checkRateLimit (rateLimitEnabled : Bool) (rateLimitInterval : Nat)
    (stored : Option Int) (now : Int) : Bool × Option Int :=
  if !rateLimitEnabled then (true, stored)
  else if now - stored.getD 0 < (rateLimitInterval : Int) * 1000 then (false, stored)
  else (true, some now)

/-- JS `Map.set`: replace the value under the key, or append a new entry. -/
def mapSet {α : Type} (m : List (String × α)) (k : String) (v : α) : List (String × α) :=
  if m.any (fun e => e.1 == k) then m.map (fun e => if e.1 == k then (k, v) else e)
  else m ++ [(k, v)]

/-- JS `Map.delete`. -/
def mapDel {α : Type} (m : List (String × α)) (k : String) : List (String × α) :=
  m.filter (fun e => !(e.1 == k))

/-- A `SearchSession` (`src/index.ts` lines 68–73): the candidate list (kept
as opaque candidate handles) and the id of its timeout timer.  The
`sendFormat`/`compress` fields ride along unchanged and play no role in the
selection logic, so they are omitted. -/
structure SearchSession where
  results : List String
  timeoutId : Nat
deriving DecidableEq, Repr

/-- The `^\d+$` test of the middleware (line 320). -/
def isDigitsOnly (s : String) : Bool :=
  !(s == "") && s.data.all (fun c => '0' ≤ c && c ≤ '9')

/-- JS `parseInt` on a decimal digit string. -/
def parseIntDec (s : String) : Nat :=
  s.data.foldl (fun n c => n * 10 + (c.toNat - Char.toNat '0')) 0

/-- How the numeric-reply middleware disposed of a message. -/
inductive MiddlewareOutcome where
  | passedToNext
  | cancelled
  | dispatched (candidate : String)
deriving DecidableEq, Repr

/-- The user-selection middleware (`src/index.ts` lines 314–337).  `input` is
the stripped and trimmed message content.  A session for the requester key
must exist, the input must be all digits; `0` cancels, `1..N` clears the
session and dispatches the chosen candidate to `handleSongRequest`, anything
else falls through to `next()` leaving the registry untouched. -/
def middlewareStep (searchSessions : List (String × SearchSession))
    (sessionKey input : String) : MiddlewareOutcome × List (String × SearchSession) :=
  match searchSessions.lookup sessionKey with
  | none => (.passedToNext, searchSessions)
  | some s =>
    if !isDigitsOnly input then (.passedToNext, searchSessions)
    else
      let index : Int := (parseIntDec input : Int) - 1
      if index == -1 then (.cancelled, mapDel searchSessions sessionKey)
      else if 0 ≤ index && index < (s.results.length : Int) then
        (.dispatched (s.results.getD (parseIntDec input - 1) ""),
          mapDel searchSessions sessionKey)
      else (.passedToNext, searchSessions)

/-- A live selection session in the registry: a generation marker (so a
replacement can be told apart from the session it replaced) and its timer. -/
structure SessionSlot where
  generation : Nat
  timeoutId : Nat
deriving DecidableEq, Repr

/-- The session registry plus the host's pending `setTimeout` callbacks; each
pending timer remembers the requester key its closure captured. -/
structure SessionRegistry where
  sessions : List (String × SessionSlot)
  pendingTimers : List (Nat × String)
deriving DecidableEq, Repr

/-- Function `clearSearchSession` (`src/index.ts` lines 200–206): if the key has a
session, `clearTimeout` its timer and delete the map entry. -/
def clearSearchSession (st : SessionRegistry) (sessionKey : String) : SessionRegistry :=
  match st.sessions.lookup sessionKey with
  | none => st
  | some slot =>
    { sessions := mapDel st.sessions sessionKey,
      pendingTimers := st.pendingTimers.filter (fun t => !(t.1 == slot.timeoutId)) }

/-- Lines 304–305 of the `ncmget` action: start the timeout timer and
`searchSessions.set(sessionKey, ...)` the new session.  Note that the source
does not call `clearSearchSession` (nor `clearTimeout`) for a session the key
may already hold. -/
def registerSearch (st : SessionRegistry) (sessionKey : String)
    (generation timerId : Nat) : SessionRegistry :=
  { sessions := mapSet st.sessions sessionKey ⟨generation, timerId⟩,
    pendingTimers := (timerId, sessionKey) :: st.pendingTimers }

/-- A pending timer fires: the host removes it from the pending set and runs
its callback `() => clearSearchSession(sessionKey)` (line 304). -/
def fireTimer (st : SessionRegistry) (timerId : Nat) : SessionRegistry :=
  match st.pendingTimers.lookup timerId with
  | none => st
  | some sessionKey =>
    clearSearchSession
      { st with pendingTimers := st.pendingTimers.filter (fun t => !(t.1 == timerId)) }
      sessionKey

/-- Program counter for the download phase of one `handleSongRequest` call. -/
inductive DownloadPc where
  | atLockCheck
  | inNotifySend
  | downloading
  | toldBusy
  | done
deriving DecidableEq, Repr

/-- Two concurrent `handleSongRequest` invocations for the same track id plus
the shared `downloadLocks` set. -/
structure DownloadRace where
  locks : List String
  first : DownloadPc
  second : DownloadPc
deriving DecidableEq, Repr

/-- One atomic segment of `handleSongRequest`'s download phase
(`src/index.ts` lines 370–407).  Atomic segments are the synchronous
stretches between `await` suspension points:
* `atLockCheck` runs the synchronous block from `downloadLocks.has(sanitizedId)`
  (line 370) through starting `await session.send(...downloading)` (line 382):
  if the lock is held the caller is told "already downloading" and stops,
  otherwise it suspends inside the send with the lock NOT yet taken;
* `inNotifySend` resumes after the send: `downloadLocks.add(sanitizedId)`
  (line 383) runs and the caller suspends in `cleanOldCache`/`downloadSong`
  (lines 386–387) — it is now downloading to the save path derived from
  `sanitizedId`;
* `downloading` finishes the download; the `finally` (line 406) deletes the
  lock. -/
def stepDownload (sanitizedId : String) (locks : List String) :
    DownloadPc → DownloadPc × List String
  | .atLockCheck =>
    if locks.contains sanitizedId then (.toldBusy, locks) else (.inNotifySend, locks)
  | .inNotifySend => (.downloading, sanitizedId :: locks)
  | .downloading => (.done, locks.erase sanitizedId)
  | .toldBusy => (.toldBusy, locks)
  | .done => (.done, locks)

/-- Run a cooperative schedule: `true` steps the second requester, `false`
the first.  Each step executes one atomic segment. -/
def runSchedule (sanitizedId : String) : List Bool → DownloadRace → DownloadRace
  | [], st => st
  | pick :: rest, st =>
    if pick then
      runSchedule sanitizedId rest
        { st with second := (stepDownload sanitizedId st.locks st.second).1,
                  locks := (stepDownload sanitizedId st.locks st.second).2 }
    else
      runSchedule sanitizedId rest
        { st with first := (stepDownload sanitizedId st.locks st.first).1,
                  locks := (stepDownload sanitizedId st.locks st.first).2 }

/-- Characters kept by the id sanitizer (line 363):
`String(song.id).replace(/[^a-zA-Z0-9-]/g, '')` — ASCII letters, digits and
the hyphen. -/
def isIdChar (c : Char) : Bool :=
  ('a' ≤ c && c ≤ 'z') || ('A' ≤ c && c ≤ 'Z') || ('0' ≤ c && c ≤ '9') || c == '-'

/-- The sanitized track id. -/
def sanitizeId (s : String) : String := String.mk (s.data.filter isIdChar)

/-- Alphanumeric-only, as claim C5 words the sanitized id (no hyphen). -/
def isAlphanumChar (c : Char) : Bool :=
  ('a' ≤ c && c ≤ 'z') || ('A' ≤ c && c ≤ 'Z') || ('0' ≤ c && c ≤ '9')

/-- JS `String.prototype.startsWith`, as used by the path-safety check
(line 376). -/
def strStartsWith (s p : String) : Bool := p.data.isPrefixOf s.data

/-- Splitting on `/` over the characters of a path (accumulator holds the
current segment reversed). -/
def splitSlashAux : List Char → List Char → List String
  | [], acc => [String.mk acc.reverse]
  | c :: rest, acc =>
    if c = '/' then String.mk acc.reverse :: splitSlashAux rest []
    else splitSlashAux rest (c :: acc)

def splitSlash (s : String) : List String := splitSlashAux s.data []

/-- POSIX normalization as `path.resolve` performs it on the joined path:
drop empty and `.` segments, let `..` pop the last kept segment (clamped at
the root). -/
def normSegsAux : List String → List String → List String
  | [], acc => acc.reverse
  | s :: rest, acc =>
    if s = "" ∨ s = "." then normSegsAux rest acc
    else if s = ".." then normSegsAux rest acc.tail
    else normSegsAux rest (s :: acc)

/-- Join segments with `/`. -/
def joinSegs : List String → String
  | [] => ""
  | [s] => s
  | s :: rest => s ++ "/" ++ joinSegs rest

/-- Model of `path.resolve(...parts)` on POSIX: starting from the process working
directory (absolute in Node), a part that is absolute restarts the
accumulation, others are appended; the joined path is then normalized and
rendered absolute. -/
def jsResolve (cwd : String) (parts : List String) : String :=
  "/" ++ joinSegs (normSegsAux (splitSlash
    (parts.foldl (fun acc p => if strStartsWith p "/" then p else acc ++ "/" ++ p) cwd)) [])

/-- The search-result fields `handleSongRequest` consumes. -/
structure Song where
  id : String
  name : String
  artist : String
deriving DecidableEq, Repr

/-- The `SongUrl` fields `handleSongRequest` consumes (`src/service.ts`). -/
structure SongUrl where
  url : String
  br : Nat
  size : Nat
deriving DecidableEq, Repr

/-- User-visible outcome of one `handleSongRequest` call. -/
inductive SongOutcome where
  | servedFromCache (path : String)
  | songUnavailable
  | invalidId
  | alreadyDownloading
  | pathCheckFailed
  | downloadError
  | downloaded (path : String)
deriving DecidableEq, Repr

/-- Configuration values `handleSongRequest` reads. -/
structure PluginConfig where
  cachePath : String
  cacheMaxSize : Nat
deriving DecidableEq, Repr

/-- The environment of one `handleSongRequest` call: filesystem existence
(`fs.access`), the resolved URL info (`ncm.getSongUrl`), the per-row eviction
failure oracle, whether `cleanOldCache`-to-`downloadSong` stretch throws,
`Date.now()` at commit time, and the process working directory. -/
structure FetchEnv where
  fsExists : String → Bool
  urlInfo : Option SongUrl
  evictFails : String → Bool
  downloadFails : Bool
  now : Nat
  cwd : String

/-- Query `ctx.database.get` for `ncm_cache` by id, followed by `cache[0]`. -/
def lookupRow (rows : List MusicCache) (id : String) : Option MusicCache :=
  (rows.filter (fun r => r.id == id)).head?

/-- The stale-hit update (line 352): `{ cached: false, cachePath: null }`. -/
def invalidateRow (rows : List MusicCache) (id : String) : List MusicCache :=
  rows.map (fun r => if r.id == id then { r with cached := false, cachePath := none } else r)

/-- Modelled from the spec: the persistence collaborator (§6) offers upsert
over the CachedTrack schema and `recordDownload` (§4.3) is "upsert by id".
The commit step of `handleSongRequest` (lines 395–399: `database.set` when a
row pre-existed, `database.create` otherwise) is modelled as that upsert. -/
def recordDownload (rows : List MusicCache) (data : MusicCache) : List MusicCache :=
  if rows.any (fun r => r.id == data.id) then
    rows.map (fun r => if r.id == data.id then data else r)
  else rows ++ [data]

/-- The miss path of `handleSongRequest` (lines 357–407): resolve the URL
(`!urlInfo?.url` is also falsy for an empty string), sanitize the id, consult
the download lock, derive the save path and check it sits under the cache
root, evict as needed, download, and commit the row.  The returned list is
the metadata table afterwards. -/
def fetchSong (config : PluginConfig) (env : FetchEnv) (downloadLocks : List String)
    (rows : List MusicCache) (song : Song) : SongOutcome × List MusicCache :=
  match env.urlInfo with
  | none => (.songUnavailable, rows)
  | some u =>
    if u.url == "" then (.songUnavailable, rows)
    else if sanitizeId song.id == "" then (.invalidId, rows)
    else if downloadLocks.contains (sanitizeId song.id) then (.alreadyDownloading, rows)
    else if !(strStartsWith (jsResolve env.cwd [config.cachePath, sanitizeId song.id ++ ".mp3"])
        (jsResolve env.cwd [config.cachePath])) then (.pathCheckFailed, rows)
    else if env.downloadFails then
      (.downloadError,
        (cleanOldCache env.evictFails rows u.size (config.cacheMaxSize * 1024 * 1024)).table)
    else
      (.downloaded (jsResolve env.cwd [config.cachePath, sanitizeId song.id ++ ".mp3"]),
        recordDownload
          (cleanOldCache env.evictFails rows u.size (config.cacheMaxSize * 1024 * 1024)).table
          ⟨song.id, song.name, song.artist, u.url, true,
            some (jsResolve env.cwd [config.cachePath, sanitizeId song.id ++ ".mp3"]),
            u.size, env.now, u.br⟩)

/-- Function `handleSongRequest` (`src/index.ts` lines 341–412): serve from cache when
the row is cached, its path truthy and the blob exists; clear the row's cache
fields and refetch when the blob is gone; otherwise fetch.  (JS truthiness:
an empty-string `cachePath` skips the hit branch without invalidating.) -/
def handleSongRequest (config : PluginConfig) (env : FetchEnv)
    (downloadLocks : List String) (rows : List MusicCache) (song : Song) :
    SongOutcome × List MusicCache :=
  match lookupRow rows song.id with
  | some c =>
    if c.cached then
      match c.cachePath with
      | some p =>
        if p == "" then fetchSong config env downloadLocks rows song
        else if env.fsExists p then (.servedFromCache p, rows)
        else fetchSong config env downloadLocks (invalidateRow rows song.id) song
      | none => fetchSong config env downloadLocks rows song
    else fetchSong config env downloadLocks rows song
  | none => fetchSong config env downloadLocks rows song

/-- The alphabet the WEAPI secret is drawn from (`src/service.ts` line 88). -/
def weapiAlphabet : String :=
  "abcdefghijklmnopqrstuvwxyzABCDEFGHIJKLMNOPQRSTUVWXYZ0123456789"

/-- The 16-character random secret: `Array.from({length: 16}, () =>
alphabet[Math.floor(Math.random() * 62)]).join('')`, with the sixteen random
draws passed in as indices below 62. -/
def secKeyOf (rands : List (Fin 62)) : String :=
  String.mk (rands.map (fun i => weapiAlphabet.data.getD i.val 'a'))

/-- Function `aesEncrypt` (`src/service.ts` lines 97–100):
`crypto.createCipheriv('aes-128-cbc', key, '0102030405060708')` over the text.
The cipher primitive itself is host code, passed in as a function of
(algorithm, key, iv, plaintext). -/
def aesEncrypt (cipher : String → String → String → String → String)
    (text key : String) : String :=
  cipher "aes-128-cbc" key "0102030405060708" text

/-- The binary-exponentiation loop of `powMod` (`src/service.ts`
lines 112–123): while `exp > 0`, multiply `result` by `base` when `exp` is
odd, halve `exp`, square `base` — all modulo `m`. -/
def powModAux (m base exp result : Nat) : Nat :=
  if _h : exp = 0 then result
  else powModAux m (base * base % m) (exp / 2)
    (if exp % 2 = 1 then result * base % m else result)
termination_by exp
decreasing_by exact Nat.div_lt_self (Nat.pos_of_ne_zero _h) (by omega)

/-- Function `powMod(base, exp, mod)`: `base = base % mod` first, then the loop with
`result = 1`. -/
def powMod (base exp m : Nat) : Nat := powModAux m (base % m) exp 1

/-- UTF-8 bytes of a string (`Buffer.from(text)`). -/
def utf8Bytes (s : String) : List Nat := s.toUTF8.toList.map (fun b => b.toNat)

/-- Value of `BigInt` applied to the hex rendering of a buffer: the big-endian integer of the
bytes. -/
def beNat (bytes : List Nat) : Nat := bytes.foldl (fun a b => a * 256 + b) 0

def hexDigit (n : Nat) : Char := "0123456789abcdef".data.getD n '0'

/-- Digits of `n.toString(16)`, most significant first. -/
def toHexAux (n : Nat) (acc : List Char) : List Char :=
  if h : n = 0 then acc
  else toHexAux (n / 16) (hexDigit (n % 16) :: acc)
termination_by n
decreasing_by exact Nat.div_lt_self (Nat.pos_of_ne_zero h) (by omega)

/-- JS `BigInt.prototype.toString(16)` (lowercase hex). -/
def toHex (n : Nat) : String := if n = 0 then "0" else String.mk (toHexAux n [])

/-- JS `String.prototype.padStart(len, c)`. -/
def padStart (s : String) (len : Nat) (c : Char) : String :=
  String.mk (List.replicate (len - s.length) c) ++ s

/-- The fixed public modulus of `rsaEncrypt` (`src/service.ts` line 106). -/
def netEaseModulus : Nat :=
  0x00e0b509f6259df8642dbc35662901477df22677ec152b5ff68ace615bb7b725152b3ab17a876aea8a5aa76d2e417629ec4ee341f56135fccf695280104e0312ecbda92557c93870114af6c9d05c4f7f0c3685b7a46bee255932575cce10b424d813cfe4875d3e82047b97ddef52741d546b8e289dc6935b3ece0462db0a22b8e7

/-- The fixed public exponent (`0x010001`). -/
def netEaseExponent : Nat := 0x010001

/-- Function `rsaEncrypt` (`src/service.ts` lines 102–110): reverse the secret's
characters, take the big integer of the reversed bytes, raise it to the fixed
exponent modulo the fixed modulus with `powMod`, and left-pad the hex to 256
digits. -/
def rsaEncrypt (text : String) : String :=
  padStart (toHex (powMod (beNat (utf8Bytes (String.mk text.data.reverse)))
    netEaseExponent netEaseModulus)) 256 '0'

/-- Characters `encodeURIComponent` leaves unescaped. -/
def uriUnreservedChar (c : Char) : Bool :=
  ('a' ≤ c && c ≤ 'z') || ('A' ≤ c && c ≤ 'Z') || ('0' ≤ c && c ≤ '9') ||
  c == '-' || c == '_' || c == '.' || c == '!' || c == '~' || c == '*' ||
  c == Char.ofNat 39 || c == '(' || c == ')'

def hexDigitUpper (n : Nat) : Char := "0123456789ABCDEF".data.getD n '0'

/-- Encoding of one character by `encodeURIComponent`: unreserved characters stay,
everything else becomes `%HH` per UTF-8 byte. -/
def uriEncodeChar (c : Char) : String :=
  if uriUnreservedChar c then String.mk [c]
  else String.join ((utf8Bytes (String.mk [c])).map
    (fun b => String.mk ['%', hexDigitUpper (b / 16), hexDigitUpper (b % 16)]))

def uriEncode (s : String) : String := String.join (s.data.map uriEncodeChar)

/-- Function `weapi(params)` (`src/service.ts` lines 85–95) after `JSON.stringify`:
encrypt the serialized payload twice with the block cipher — first under the
hardcoded shared secret, then under the random secret — RSA-encrypt the
random secret, and emit the two form-encoded fields. -/
def weapi (cipher : String → String → String → String → String)
    (text secKey : String) : String :=
  "params=" ++
    uriEncode (aesEncrypt cipher (aesEncrypt cipher text "0CoJUm6Qyw8W8jud") secKey) ++
  "&encSecKey=" ++ uriEncode (rsaEncrypt secKey)

/-- The envelope as the spec words it (§4.1): the block cipher (same abstract
primitive, 128-bit-key CBC algorithm name, fixed IV) applied first with the
hardcoded shared secret and then with the random secret; the random secret
encrypted separately by plain modular exponentiation `x ^ e % n` of the
big-integer of the byte-reversed secret, left-padded to 256 hex digits; two
form-encoded output fields. -/
def weapiSpecModel (cipher : String → String → String → String → String)
    (text secKey : String) : String :=
  "params=" ++
    uriEncode (cipher "aes-128-cbc" secKey "0102030405060708"
      (cipher "aes-128-cbc" "0CoJUm6Qyw8W8jud" "0102030405060708" text)) ++
  "&encSecKey=" ++
    uriEncode (padStart (toHex
      (beNat (utf8Bytes (String.mk secKey.data.reverse)) ^ netEaseExponent % netEaseModulus))
      256 '0')

theorem sizeSum_nil : sizeSum [] = 0 := rfl

theorem foldl_add_init (l : List MusicCache) (n : Nat) :
    l.foldl (fun sum c => sum + c.fileSize) n = n + sizeSum l := by
  induction l generalizing n with
  | nil => simp [sizeSum]
  | cons c t ih =>
    simp only [sizeSum, List.foldl_cons] at *
    rw [ih (n + c.fileSize), ih (0 + c.fileSize)]
    omega

theorem sizeSum_cons (c : MusicCache) (l : List MusicCache) :
    sizeSum (c :: l) = c.fileSize + sizeSum l := by
  show (c :: l).foldl (fun sum c => sum + c.fileSize) 0 = c.fileSize + sizeSum l
  rw [List.foldl_cons, foldl_add_init]
  omega

theorem getCacheTotalSize_ok (l : List MusicCache) :
    getCacheTotalSize (.ok l) = sizeSum l := rfl

/-- Accounting invariant of the eviction loop: if the bytes still evictable in
the unprocessed suffix would suffice to bring the accounted size within budget,
then when the loop stops the accounted size is within budget. -/
theorem evictLoop_budget (evictFails : String → Bool)
    (currentSize requiredSpace maxBytes : Nat) :
    ∀ (l : List MusicCache) (freedSpace : Nat),
      ((currentSize : Int) - (freedSpace + sizeSum (l.filter (fun c => !evictFails c.id)))
          + requiredSpace ≤ maxBytes) →
      (currentSize : Int)
          - (freedSpace +
              sizeSum (evictLoop evictFails currentSize requiredSpace maxBytes l freedSpace).1)
          + requiredSpace ≤ maxBytes := by
  intro l
  induction l with
  | nil =>
    intro freedSpace h
    simpa [evictLoop, sizeSum] using h
  | cons c rest ih =>
    intro freedSpace h
    by_cases hbrk : (currentSize : Int) - freedSpace + requiredSpace ≤ maxBytes
    · simp [evictLoop, hbrk, sizeSum]
    · by_cases hf : evictFails c.id
      · have h' :
            (currentSize : Int)
                - (freedSpace + sizeSum (rest.filter (fun c => !evictFails c.id)))
                + requiredSpace ≤ maxBytes := by
          simpa [List.filter_cons, hf] using h
        rw [evictLoop, if_neg hbrk, if_pos hf]
        exact ih freedSpace h'
      · have h' :
            (currentSize : Int)
                - ((freedSpace + c.fileSize)
                    + sizeSum (rest.filter (fun c => !evictFails c.id)))
                + requiredSpace ≤ maxBytes := by
          have hcopy := h
          simp only [List.filter_cons, hf] at hcopy
          rw [if_pos (by simp [hf])] at hcopy
          rw [sizeSum_cons] at hcopy
          push_cast at hcopy ⊢
          omega
        have hrec := ih (freedSpace + c.fileSize) h'
        rw [evictLoop, if_neg hbrk, if_neg hf]
        rw [sizeSum_cons]
        push_cast at hrec ⊢
        omega

/-- The rows the loop evicts, followed by the rows it left unprocessed, form a
sublist of its input: every cached row is considered at most once and the loop
terminates after one pass. -/
theorem evictLoop_append_sublist (evictFails : String → Bool)
    (currentSize requiredSpace maxBytes : Nat) :
    ∀ (l : List MusicCache) (freedSpace : Nat),
      ((evictLoop evictFails currentSize requiredSpace maxBytes l freedSpace).1 ++
        (evictLoop evictFails currentSize requiredSpace maxBytes l freedSpace).2).Sublist l := by
  intro l
  induction l with
  | nil => intro freedSpace; simp [evictLoop]
  | cons c rest ih =>
    intro freedSpace
    by_cases hbrk : (currentSize : Int) - freedSpace + requiredSpace ≤ maxBytes
    · simp [evictLoop, hbrk]
    · by_cases hf : evictFails c.id
      · rw [evictLoop, if_neg hbrk, if_pos hf]
        exact (ih freedSpace).cons c
      · rw [evictLoop, if_neg hbrk, if_neg hf]
        exact (ih (freedSpace + c.fileSize)).cons₂ c

theorem evictLoop_evicted_sublist (evictFails : String → Bool)
    (currentSize requiredSpace maxBytes : Nat) (l : List MusicCache) (freedSpace : Nat) :
    (evictLoop evictFails currentSize requiredSpace maxBytes l freedSpace).1.Sublist l :=
  ((List.sublist_append_left _ _).trans
    (evictLoop_append_sublist evictFails currentSize requiredSpace maxBytes l freedSpace))

theorem sizeSum_eq_sum_map (l : List MusicCache) :
    sizeSum l = (l.map (fun c => c.fileSize)).sum := by
  induction l with
  | nil => rfl
  | cons c t ih => rw [sizeSum_cons, List.map_cons, List.sum_cons, ih]

theorem sizeSum_perm {l₁ l₂ : List MusicCache} (h : l₁.Perm l₂) :
    sizeSum l₁ = sizeSum l₂ := by
  rw [sizeSum_eq_sum_map, sizeSum_eq_sum_map]
  exact (h.map (fun c => c.fileSize)).sum_eq

/-- Splitting a filtered sum by a second predicate. -/
theorem sizeSum_filter_split (p q : MusicCache → Bool) (l : List MusicCache) :
    sizeSum (l.filter p) =
      sizeSum (l.filter (fun r => p r && q r)) + sizeSum (l.filter (fun r => p r && !q r)) := by
  induction l with
  | nil => rfl
  | cons c t ih =>
    simp only [List.filter_cons]
    by_cases hp : p c
    · by_cases hq : q c
      · rw [if_pos hp, if_pos (by simp [hp, hq]), if_neg (by simp [hp, hq]),
          sizeSum_cons, sizeSum_cons, ih]
        omega
      · rw [if_pos hp, if_neg (by simp [hp, hq]), if_pos (by simp [hp, hq]),
          sizeSum_cons, sizeSum_cons, ih]
        omega
    · rw [if_neg hp, if_neg (by simp [hp]), if_neg (by simp [hp])]
      exact ih

/-- The cached bytes left in the table after applying the per-row eviction
update are the bytes of the cached rows the sweep did not touch. -/
theorem sizeSum_table_after (rows ev : List MusicCache) :
    sizeSum ((rows.map (fun r =>
        if ev.any (fun e => e.id == r.id) then clearCacheFields r else r)).filter
          (fun c => c.cached)) =
      sizeSum (rows.filter (fun r => r.cached && !(ev.any (fun e => e.id == r.id)))) := by
  induction rows with
  | nil => rfl
  | cons c t ih =>
    by_cases hhit : ev.any (fun e => e.id == c.id)
    · simp only [List.map_cons, List.filter_cons]
      rw [if_pos hhit]
      rw [if_neg (by simp [clearCacheFields]), if_neg (by simp [hhit])]
      exact ih
    · by_cases hc : c.cached
      · simp only [List.map_cons, List.filter_cons]
        rw [if_neg hhit, if_pos (by simpa using hc), if_pos (by simp [hc, hhit])]
        rw [sizeSum_cons, sizeSum_cons, ih]
      · simp only [List.map_cons, List.filter_cons]
        rw [if_neg hhit, if_neg (by simpa using hc), if_neg (by simp [hc])]
        exact ih

theorem nodupIds_of_sublist {l₁ l₂ : List MusicCache} (hs : l₁.Sublist l₂)
    (h : (l₂.map (fun r => r.id)).Nodup) : (l₁.map (fun r => r.id)).Nodup :=
  (hs.map (fun r => r.id)).nodup h

theorem nodupIds_of_perm {l₁ l₂ : List MusicCache} (hp : l₁.Perm l₂)
    (h : (l₁.map (fun r => r.id)).Nodup) : (l₂.map (fun r => r.id)).Nodup :=
  (hp.map (fun r => r.id)).nodup_iff.mp h

/-- Under distinct primary keys, the cached rows matched by the evicted ids are
exactly (a permutation of) the evicted rows themselves. -/
theorem filter_hit_perm_evicted (rows : List MusicCache)
    (hnd : (rows.map (fun r => r.id)).Nodup)
    (ev : List MusicCache) (hev : ev.Sublist (sortedCaches rows)) :
    (rows.filter (fun r => r.cached && ev.any (fun e => e.id == r.id))).Perm ev := by
  have hperm : (sortedCaches rows).Perm (rows.filter (fun c => c.cached)) :=
    List.perm_insertionSort byCacheTime _
  have hmem_sorted : ∀ e ∈ ev, e ∈ rows.filter (fun c => c.cached) := by
    intro e he
    exact hperm.mem_iff.mp (hev.subset he)
  have hmem_rows : ∀ e ∈ ev, e ∈ rows := fun e he =>
    List.mem_of_mem_filter (hmem_sorted e he)
  have hcached : ∀ e ∈ ev, e.cached = true := fun e he =>
    by simpa using List.of_mem_filter (hmem_sorted e he)
  have hnd_filter : ((rows.filter (fun c => c.cached)).map (fun r => r.id)).Nodup :=
    nodupIds_of_sublist (List.filter_sublist rows) hnd
  have hnd_sorted : ((sortedCaches rows).map (fun r => r.id)).Nodup :=
    nodupIds_of_perm hperm.symm hnd_filter
  have hnd_ev : (ev.map (fun r => r.id)).Nodup := nodupIds_of_sublist hev hnd_sorted
  have hinj : ∀ x ∈ rows, ∀ y ∈ rows, x.id = y.id → x = y :=
    List.inj_on_of_nodup_map hnd
  have hnd_rows : rows.Nodup := List.Nodup.of_map _ hnd
  have hnd_ev' : ev.Nodup := List.Nodup.of_map _ hnd_ev
  have hmem_iff : ∀ r, r ∈ rows.filter (fun r => r.cached && ev.any (fun e => e.id == r.id)) ↔
      r ∈ ev := by
    intro r
    constructor
    · intro hr
      have hrrows : r ∈ rows := List.mem_of_mem_filter hr
      have hcond := List.of_mem_filter hr
      simp only [Bool.and_eq_true, List.any_eq_true, beq_iff_eq] at hcond
      obtain ⟨-, e, heev, heid⟩ := hcond
      have : e = r := hinj e (hmem_rows e heev) r hrrows heid
      exact this ▸ heev
    · intro hr
      refine List.mem_filter.mpr ⟨hmem_rows r hr, ?_⟩
      simp only [Bool.and_eq_true, List.any_eq_true, beq_iff_eq]
      exact ⟨hcached r hr, r, hr, rfl⟩
  refine List.perm_of_nodup_nodup_toFinset_eq ?_ hnd_ev' ?_
  · exact (List.filter_sublist rows).nodup hnd_rows
  · ext r
    simp only [List.mem_toFinset]
    exact hmem_iff r

/-- C2 (claim): for every `cleanOldCache` call with incoming size `S` and
budget `B`: if `totalCachedBytes + S ≤ B` the call is a no-op; the sweep visits
every cached row at most once (its evictions are a sublist of the sorted cached
rows, so one pass and termination); and whenever the evictable volume would
suffice, the cached bytes accounted in the table after the sweep plus `S` do
not exceed `B`. -/
theorem cleanOldCache_budget_spec (evictFails : String → Bool) (rows : List MusicCache)
    (requiredSpace maxBytes : Nat) (hnd : (rows.map (fun r => r.id)).Nodup) :
    (sizeSum (rows.filter (fun c => c.cached)) + requiredSpace ≤ maxBytes →
      cleanOldCache evictFails rows requiredSpace maxBytes = ⟨rows, [], []⟩) ∧
    (cleanOldCache evictFails rows requiredSpace maxBytes).evicted.Sublist
      (sortedCaches rows) ∧
    ((sizeSum (rows.filter (fun c => c.cached)) : Int)
        - evictableBytes evictFails rows + requiredSpace ≤ maxBytes →
      (sizeSum (((cleanOldCache evictFails rows requiredSpace maxBytes).table.filter
          (fun c => c.cached))) : Int) + requiredSpace ≤ maxBytes) := by
  by_cases hfit :
      sizeSum (rows.filter (fun c => c.cached)) + requiredSpace ≤ maxBytes
  · constructor
    · intro _
      unfold cleanOldCache
      rw [getCacheTotalSize_ok, if_pos hfit]
    · have hres : cleanOldCache evictFails rows requiredSpace maxBytes = ⟨rows, [], []⟩ := by
        unfold cleanOldCache
        rw [getCacheTotalSize_ok, if_pos hfit]
      rw [hres]
      exact ⟨List.nil_sublist _, by intro _; push_cast; omega⟩
  · have hres : cleanOldCache evictFails rows requiredSpace maxBytes =
        ⟨rows.map (fun r =>
            if (evictLoop evictFails (sizeSum (rows.filter (fun c => c.cached)))
                requiredSpace maxBytes (sortedCaches rows) 0).1.any (fun e => e.id == r.id)
            then clearCacheFields r else r),
          (evictLoop evictFails (sizeSum (rows.filter (fun c => c.cached)))
            requiredSpace maxBytes (sortedCaches rows) 0).1,
          (evictLoop evictFails (sizeSum (rows.filter (fun c => c.cached)))
            requiredSpace maxBytes (sortedCaches rows) 0).2⟩ := by
      unfold cleanOldCache
      rw [getCacheTotalSize_ok, if_neg hfit]
    refine ⟨fun h => absurd h hfit, ?_, ?_⟩
    · rw [hres]
      exact evictLoop_evicted_sublist _ _ _ _ _ _
    · intro hsuff
      have hevictable :
          sizeSum ((sortedCaches rows).filter (fun c => !evictFails c.id)) =
            evictableBytes evictFails rows := by
        unfold evictableBytes
        exact sizeSum_perm ((List.perm_insertionSort byCacheTime _).filter _)
      have hloop := evictLoop_budget evictFails
        (sizeSum (rows.filter (fun c => c.cached))) requiredSpace maxBytes
        (sortedCaches rows) 0
        (by rw [hevictable]; push_cast; omega)
      have hsub : ((evictLoop evictFails (sizeSum (rows.filter (fun c => c.cached)))
          requiredSpace maxBytes (sortedCaches rows) 0).1).Sublist (sortedCaches rows) :=
        evictLoop_evicted_sublist _ _ _ _ _ _
      have hevperm := filter_hit_perm_evicted rows hnd _ hsub
      have hevsum := sizeSum_perm hevperm
      have hsplit := sizeSum_filter_split (fun c => c.cached)
        (fun r => (evictLoop evictFails (sizeSum (rows.filter (fun c => c.cached)))
          requiredSpace maxBytes (sortedCaches rows) 0).1.any (fun e => e.id == r.id)) rows
      have htable :
          sizeSum ((cleanOldCache evictFails rows requiredSpace maxBytes).table.filter
            (fun c => c.cached)) =
          sizeSum (rows.filter (fun r => r.cached &&
            !((evictLoop evictFails (sizeSum (rows.filter (fun c => c.cached)))
              requiredSpace maxBytes (sortedCaches rows) 0).1.any (fun e => e.id == r.id)))) := by
        rw [hres]
        exact sizeSum_table_after rows _
      rw [htable]
      push_cast at hloop ⊢
      omega

/-- Witness for `cleanOldCache_budget_spec` at concrete inputs: an empty table
with fitting incoming bytes is a no-op, and a two-row table with sufficient
evictable volume ends within budget. -/
theorem cleanOldCache_budget_spec_witness :
    (([] : List MusicCache).map (fun r => r.id)).Nodup ∧
    cleanOldCache (fun _ => false) [] 5 10 = ⟨[], [], []⟩ ∧
    (([⟨"1", "n1", "a1", "u1", true, some "/c/1.mp3", 8, 1, 320⟩,
       ⟨"2", "n2", "a2", "u2", true, some "/c/2.mp3", 7, 2, 320⟩] :
        List MusicCache).map (fun r => r.id)).Nodup ∧
    ((sizeSum (([⟨"1", "n1", "a1", "u1", true, some "/c/1.mp3", 8, 1, 320⟩,
        ⟨"2", "n2", "a2", "u2", true, some "/c/2.mp3", 7, 2, 320⟩] :
          List MusicCache).filter (fun c => c.cached)) : Int)
      - evictableBytes (fun _ => false)
          [⟨"1", "n1", "a1", "u1", true, some "/c/1.mp3", 8, 1, 320⟩,
           ⟨"2", "n2", "a2", "u2", true, some "/c/2.mp3", 7, 2, 320⟩] + 10 ≤ 20) ∧
    ((sizeSum ((cleanOldCache (fun _ => false)
        [⟨"1", "n1", "a1", "u1", true, some "/c/1.mp3", 8, 1, 320⟩,
         ⟨"2", "n2", "a2", "u2", true, some "/c/2.mp3", 7, 2, 320⟩] 10 20).table.filter
          (fun c => c.cached)) : Int) + 10 ≤ 20) :=
  ⟨by decide,
   (cleanOldCache_budget_spec (fun _ => false) [] 5 10 (by decide)).1 (by decide),
   by decide,
   by decide,
   (cleanOldCache_budget_spec (fun _ => false)
      [⟨"1", "n1", "a1", "u1", true, some "/c/1.mp3", 8, 1, 320⟩,
       ⟨"2", "n2", "a2", "u2", true, some "/c/2.mp3", 7, 2, 320⟩] 10 20
      (by decide)).2.2 (by decide)⟩

/-- C6 (claim): in every eviction sweep the rows actually evicted are
processed in non-decreasing `cacheTime` order, and no evicted row is newer
than a still-cached row the sweep skipped when the budget check broke the
loop. -/
theorem eviction_order_nondecreasing (evictFails : String → Bool) (rows : List MusicCache)
    (requiredSpace maxBytes : Nat) :
    List.Pairwise byCacheTime (cleanOldCache evictFails rows requiredSpace maxBytes).evicted ∧
    ∀ e ∈ (cleanOldCache evictFails rows requiredSpace maxBytes).evicted,
      ∀ s ∈ (cleanOldCache evictFails rows requiredSpace maxBytes).remaining,
        e.cacheTime ≤ s.cacheTime := by
  by_cases hfit :
      getCacheTotalSize (.ok (rows.filter (fun c => c.cached))) + requiredSpace ≤ maxBytes
  · have hres : cleanOldCache evictFails rows requiredSpace maxBytes = ⟨rows, [], []⟩ := by
      unfold cleanOldCache
      rw [if_pos hfit]
    rw [hres]
    exact ⟨List.Pairwise.nil, by intro e he; cases he⟩
  · have hres : cleanOldCache evictFails rows requiredSpace maxBytes =
        ⟨rows.map (fun r =>
            if (evictLoop evictFails (getCacheTotalSize (.ok (rows.filter (fun c => c.cached))))
                requiredSpace maxBytes (sortedCaches rows) 0).1.any (fun e => e.id == r.id)
            then clearCacheFields r else r),
          (evictLoop evictFails (getCacheTotalSize (.ok (rows.filter (fun c => c.cached))))
            requiredSpace maxBytes (sortedCaches rows) 0).1,
          (evictLoop evictFails (getCacheTotalSize (.ok (rows.filter (fun c => c.cached))))
            requiredSpace maxBytes (sortedCaches rows) 0).2⟩ := by
      unfold cleanOldCache
      rw [if_neg hfit]
    rw [hres]
    have hsorted : List.Pairwise byCacheTime (sortedCaches rows) :=
      List.sorted_insertionSort byCacheTime (rows.filter (fun c => c.cached))
    have happ := evictLoop_append_sublist evictFails
      (getCacheTotalSize (.ok (rows.filter (fun c => c.cached)))) requiredSpace maxBytes
      (sortedCaches rows) 0
    have hpw := hsorted.sublist happ
    have := List.pairwise_append.mp hpw
    exact ⟨this.1, fun e he s hs => this.2.2 e he s hs⟩

/-- Witness for `eviction_order_nondecreasing`: a sweep that evicts the oldest
row and leaves two newer rows behind. -/
theorem eviction_order_nondecreasing_witness :
    (⟨"1", "n1", "a1", "u1", true, some "/c/1.mp3", 8, 1, 320⟩ : MusicCache) ∈
      (cleanOldCache (fun _ => false)
        [⟨"1", "n1", "a1", "u1", true, some "/c/1.mp3", 8, 1, 320⟩,
         ⟨"2", "n2", "a2", "u2", true, some "/c/2.mp3", 7, 2, 320⟩,
         ⟨"3", "n3", "a3", "u3", true, some "/c/3.mp3", 9, 3, 320⟩] 10 30).evicted ∧
    (1 : Nat) ≤ (2 : Nat) :=
  ⟨by decide,
   (eviction_order_nondecreasing (fun _ => false)
      [⟨"1", "n1", "a1", "u1", true, some "/c/1.mp3", 8, 1, 320⟩,
       ⟨"2", "n2", "a2", "u2", true, some "/c/2.mp3", 7, 2, 320⟩,
       ⟨"3", "n3", "a3", "u3", true, some "/c/3.mp3", 9, 3, 320⟩] 10 30).2
      ⟨"1", "n1", "a1", "u1", true, some "/c/1.mp3", 8, 1, 320⟩ (by decide)
      ⟨"2", "n2", "a2", "u2", true, some "/c/2.mp3", 7, 2, 320⟩ (by decide)⟩

/-- C10 counterexample: with the first (guarded) query failing, the claim
"`cleanOldCache` concludes the budget is satisfied and evicts nothing for any
incoming size and budget" is false — when the incoming size exceeds the
budget, the sweep proceeds on the second query and evicts. -/
theorem cleanOldCacheDb_error_not_noop :
    cleanOldCacheDb (.error ()) (.ok [⟨"1", "n", "a", "u", true, some "/c/1.mp3", 5, 1, 320⟩])
        (fun _ => false) 2 1 =
      .swept [⟨"1", "n", "a", "u", true, some "/c/1.mp3", 5, 1, 320⟩] ∧
    CleanOutcome.swept [(⟨"1", "n", "a", "u", true, some "/c/1.mp3", 5, 1, 320⟩ : MusicCache)] ≠
      .noop := by
  exact ⟨by decide, by decide⟩

/-- C10 (amended): if the guarded metadata query fails, `getCacheTotalSize`
returns `0` instead of propagating, and `cleanOldCache` therefore concludes
the budget is satisfied — no eviction, no error — whenever the incoming size
is at most the budget.  (If the incoming size exceeds the budget the sweep
re-queries the table and failure or eviction can follow.) -/
theorem cleanOldCacheDb_error_spec (db2 : Except Unit (List MusicCache))
    (evictFails : String → Bool) (requiredSpace maxBytes : Nat)
    (h : requiredSpace ≤ maxBytes) :
    getCacheTotalSize (.error ()) = 0 ∧
    cleanOldCacheDb (.error ()) db2 evictFails requiredSpace maxBytes = .noop := by
  refine ⟨rfl, ?_⟩
  unfold cleanOldCacheDb
  rw [if_pos]
  show getCacheTotalSize (.error ()) + requiredSpace ≤ maxBytes
  simpa [getCacheTotalSize] using h

/-- Witness for `cleanOldCacheDb_error_spec`. -/
theorem cleanOldCacheDb_error_spec_witness :
    (3 : Nat) ≤ 10 ∧
    (getCacheTotalSize (.error ()) = 0 ∧
      cleanOldCacheDb (.error ())
        (.ok [⟨"1", "n", "a", "u", true, some "/c/1.mp3", 5, 1, 320⟩])
        (fun _ => false) 3 10 = .noop) :=
  ⟨by decide,
   cleanOldCacheDb_error_spec (.ok [⟨"1", "n", "a", "u", true, some "/c/1.mp3", 5, 1, 320⟩])
     (fun _ => false) 3 10 (by decide)⟩

/-- C7 (claim): with rate limiting enabled, a call is rejected iff strictly
less than the configured interval has elapsed since the stored last-accepted
timestamp; an accepted call stores the current time, a rejected call leaves
the store unchanged.  The claim's examples: with a 2-second interval, calls at
`t=0` and `t=1000` ms reject the second; calls at `t=0` and `t=2500` ms are
both accepted. -/
theorem checkRateLimit_spec (rateLimitInterval : Nat) (stored : Option Int) (now : Int) :
    ((checkRateLimit true rateLimitInterval stored now).1 = false ↔
      now - stored.getD 0 < (rateLimitInterval : Int) * 1000) ∧
    ((checkRateLimit true rateLimitInterval stored now).1 = true →
      (checkRateLimit true rateLimitInterval stored now).2 = some now) ∧
    ((checkRateLimit true rateLimitInterval stored now).1 = false →
      (checkRateLimit true rateLimitInterval stored now).2 = stored) ∧
    checkRateLimit true 2 (some 0) 1000 = (false, some 0) ∧
    checkRateLimit true 2 (some 0) 2500 = (true, some 2500) := by
  by_cases h : now - stored.getD 0 < (rateLimitInterval : Int) * 1000
  · refine ⟨?_, ?_, ?_, by decide, by decide⟩ <;>
      simp [checkRateLimit, if_pos h, h]
  · refine ⟨?_, ?_, ?_, by decide, by decide⟩ <;>
      simp [checkRateLimit, if_neg h, h]

/-- Witness for `checkRateLimit_spec`: the rejected call at `t=1000` after an
accepted call at `t=0` leaves the stored timestamp unchanged. -/
theorem checkRateLimit_spec_witness :
    (checkRateLimit true 2 (some 0) 1000).1 = false ∧
    (checkRateLimit true 2 (some 0) 1000).2 = some 0 :=
  ⟨by decide, (checkRateLimit_spec 2 (some 0) 1000).2.2.1 (by decide)⟩

/-- C4 (claim): for a live selection session with `N` candidates, the next
all-digits reply from the same requester key: `0` cancels (session removed),
`k` with `1 ≤ k ≤ N` removes the session and dispatches candidate `k-1`
(1-based input); any non-numeric or out-of-range reply is not consumed — the
middleware passes it on and the registry is unchanged. -/
theorem middleware_selection_spec (reg : List (String × SearchSession))
    (sessionKey input : String) (s : SearchSession)
    (hs : reg.lookup sessionKey = some s) :
    (isDigitsOnly input = true → parseIntDec input = 0 →
      middlewareStep reg sessionKey input = (.cancelled, mapDel reg sessionKey)) ∧
    (∀ k : Nat, isDigitsOnly input = true → parseIntDec input = k →
      1 ≤ k → k ≤ s.results.length →
      middlewareStep reg sessionKey input =
        (.dispatched (s.results.getD (k - 1) ""), mapDel reg sessionKey)) ∧
    (isDigitsOnly input = false →
      middlewareStep reg sessionKey input = (.passedToNext, reg)) ∧
    (isDigitsOnly input = true → s.results.length < parseIntDec input →
      middlewareStep reg sessionKey input = (.passedToNext, reg)) := by
  refine ⟨?_, ?_, ?_, ?_⟩
  · intro hd hz
    unfold middlewareStep
    rw [hs]
    simp only [hd, Bool.not_true, Bool.false_eq_true, if_false, hz]
    rw [if_pos (by decide)]
  · intro k hd hk h1 hN
    unfold middlewareStep
    rw [hs]
    simp only [hd, Bool.not_true, Bool.false_eq_true, if_false, hk]
    rw [if_neg (by simp; omega), if_pos (by simp; omega)]
  · intro hd
    unfold middlewareStep
    rw [hs]
    simp [hd]
  · intro hd hout
    unfold middlewareStep
    rw [hs]
    simp only [hd, Bool.not_true, Bool.false_eq_true, if_false]
    rw [if_neg (by simp; omega), if_neg (by simp; omega)]

/-- Witness for `middleware_selection_spec`: with three candidates, reply
`"2"` dispatches the second candidate and removes the session. -/
theorem middleware_selection_spec_witness :
    ([("p:c:u", (⟨["cand1", "cand2", "cand3"], 7⟩ : SearchSession))].lookup "p:c:u" =
      some ⟨["cand1", "cand2", "cand3"], 7⟩) ∧
    middlewareStep [("p:c:u", ⟨["cand1", "cand2", "cand3"], 7⟩)] "p:c:u" "2" =
      (.dispatched (["cand1", "cand2", "cand3"].getD (2 - 1) ""),
        mapDel [("p:c:u", ⟨["cand1", "cand2", "cand3"], 7⟩)] "p:c:u") :=
  ⟨by decide,
   (middleware_selection_spec [("p:c:u", ⟨["cand1", "cand2", "cand3"], 7⟩)] "p:c:u" "2"
      ⟨["cand1", "cand2", "cand3"], 7⟩ (by decide)).2.1 2
      (by decide) (by decide) (by decide) (by decide)⟩

/-- C3 (code bug): a second search for a requester key that already holds a
live session replaces the session in the registry, but the source never
cancels the old session's timer (lines 304–305 `set` without a prior
`clearSearchSession`).  When the stale timer fires, its callback
`clearSearchSession(sessionKey)` destroys the *replacement* session: after
`registerSearch` twice under key `"k"` (timers 101 then 102), timer 101 is
still pending, and firing it removes the generation-2 session.  The claim
says the old timer is cancelled so this cannot happen. -/
theorem staleTimer_destroys_replacement :
    ((registerSearch (registerSearch ⟨[], []⟩ "k" 1 101) "k" 2 102).sessions.lookup "k" =
      some ⟨2, 102⟩) ∧
    ((registerSearch (registerSearch ⟨[], []⟩ "k" 1 101) "k" 2 102).pendingTimers.lookup 101 =
      some "k") ∧
    ((fireTimer (registerSearch (registerSearch ⟨[], []⟩ "k" 1 101) "k" 2 102)
        101).sessions.lookup "k" = none) := by decide

/-- C1 (code bug): the lock check (line 370) and the lock acquisition
(line 383) are separated by the awaited notification send (line 382).  On the
schedule first–second–first–second, both requesters for track id `"123"` pass
the empty lock check, then both add the lock and reach the download segment:
two in-flight downloads to the same save path, violating the claimed
per-track-id mutual exclusion.  (The last conjunct shows the guard does work
when a requester checks after another has already added the lock: it is told
"already downloading".) -/
theorem downloadLock_race_both_download :
    (runSchedule "123" [false, true, false, true]
        ⟨[], .atLockCheck, .atLockCheck⟩).first = .downloading ∧
    (runSchedule "123" [false, true, false, true]
        ⟨[], .atLockCheck, .atLockCheck⟩).second = .downloading ∧
    (runSchedule "123" [false, false, true]
        ⟨[], .atLockCheck, .atLockCheck⟩).second = .toldBusy := by decide

theorem string_eq_of_data {a b : String} (h : a.data = b.data) : a = b := by
  cases a; cases b; exact congrArg String.mk h

theorem isPrefixOf_append_self (l e : List Char) : l.isPrefixOf (l ++ e) = true := by
  induction l with
  | nil => simp [List.isPrefixOf]
  | cons c t ih => simp [List.isPrefixOf, ih]

theorem strStartsWith_of_data {s p : String} (e : List Char) (h : s.data = p.data ++ e) :
    strStartsWith s p = true := by
  unfold strStartsWith
  rw [h]
  exact isPrefixOf_append_self p.data e

theorem splitSlashAux_nil (acc : List Char) :
    splitSlashAux [] acc = [String.mk acc.reverse] := rfl

theorem splitSlashAux_cons_slash (rest acc : List Char) :
    splitSlashAux ('/' :: rest) acc = String.mk acc.reverse :: splitSlashAux rest [] := by
  simp [splitSlashAux]

theorem splitSlashAux_cons_seg {c : Char} (hc : ¬c = '/') (rest acc : List Char) :
    splitSlashAux (c :: rest) acc = splitSlashAux rest (c :: acc) := by
  simp [splitSlashAux, hc]

theorem splitSlashAux_no_slash (nm : List Char) (h : ∀ c ∈ nm, ¬c = '/') :
    ∀ acc : List Char, splitSlashAux nm acc = [String.mk (acc.reverse ++ nm)] := by
  induction nm with
  | nil => intro acc; simp [splitSlashAux_nil]
  | cons c rest ih =>
    intro acc
    have hc : ¬c = '/' := h c (List.mem_cons_self c rest)
    rw [splitSlashAux_cons_seg hc,
      ih (fun x hx => h x (List.mem_cons_of_mem c hx)) (c :: acc)]
    simp

theorem splitSlashAux_append (name : List Char) (hname : ∀ c ∈ name, ¬c = '/') :
    ∀ (l acc : List Char),
      splitSlashAux (l ++ '/' :: name) acc = splitSlashAux l acc ++ [String.mk name] := by
  intro l
  induction l with
  | nil =>
    intro acc
    rw [List.nil_append, splitSlashAux_cons_slash, splitSlashAux_no_slash name hname [],
      splitSlashAux_nil]
    simp
  | cons c t ih =>
    intro acc
    by_cases hc : c = '/'
    · subst hc
      rw [List.cons_append, splitSlashAux_cons_slash, ih [], splitSlashAux_cons_slash]
      simp
    · rw [List.cons_append, splitSlashAux_cons_seg hc, ih (c :: acc),
        splitSlashAux_cons_seg hc]

theorem normSegsAux_nil (acc : List String) : normSegsAux [] acc = acc.reverse := rfl

theorem normSegsAux_cons_skip {s : String} (h : s = "" ∨ s = ".") (rest acc : List String) :
    normSegsAux (s :: rest) acc = normSegsAux rest acc := by
  simp [normSegsAux, h]

theorem normSegsAux_cons_up {s : String} (h2 : s = "..") (rest acc : List String) :
    normSegsAux (s :: rest) acc = normSegsAux rest acc.tail := by
  simp [normSegsAux, h2]

theorem normSegsAux_cons_seg {s : String} (h1 : ¬(s = "" ∨ s = ".")) (h2 : ¬s = "..")
    (rest acc : List String) :
    normSegsAux (s :: rest) acc = normSegsAux rest (s :: acc) := by
  simp [normSegsAux, h1, h2]

theorem normSegsAux_append (n : String) (h1 : ¬(n = "" ∨ n = ".")) (h3 : ¬n = "..") :
    ∀ (l acc : List String),
      normSegsAux (l ++ [n]) acc = normSegsAux l acc ++ [n] := by
  intro l
  induction l with
  | nil =>
    intro acc
    rw [List.nil_append, normSegsAux_cons_seg h1 h3, normSegsAux_nil, normSegsAux_nil]
    simp
  | cons s t ih =>
    intro acc
    by_cases hs1 : s = "" ∨ s = "."
    · rw [List.cons_append, normSegsAux_cons_skip hs1, ih acc, normSegsAux_cons_skip hs1]
    · by_cases hs2 : s = ".."
      · rw [List.cons_append, normSegsAux_cons_up hs2, ih acc.tail,
          normSegsAux_cons_up hs2]
      · rw [List.cons_append, normSegsAux_cons_seg hs1 hs2, ih (s :: acc),
          normSegsAux_cons_seg hs1 hs2]

theorem joinSegs_append (l : List String) (n : String) (h : l ≠ []) :
    joinSegs (l ++ [n]) = joinSegs l ++ "/" ++ n := by
  induction l with
  | nil => exact absurd rfl h
  | cons s t ih =>
    cases t with
    | nil => simp [joinSegs]
    | cons r ts =>
      have step : joinSegs ((s :: r :: ts) ++ [n]) = s ++ "/" ++ joinSegs ((r :: ts) ++ [n]) := by
        simp [joinSegs]
      rw [step, ih (by simp)]
      show s ++ "/" ++ (joinSegs (r :: ts) ++ "/" ++ n) =
        (s ++ "/" ++ joinSegs (r :: ts)) ++ "/" ++ n
      simp [String.append_assoc]

/-- The save path that `path.resolve(config.cachePath, name)` produces for a
single plain segment `name` always extends `path.resolve(config.cachePath)`,
so the `startsWith` guard of line 376 holds. -/
theorem jsResolve_under_root (cwd cachePath name : String)
    (hns : ∀ c ∈ name.data, ¬c = '/') (h1 : ¬(name = "" ∨ name = ".")) (h3 : ¬name = "..") :
    strStartsWith (jsResolve cwd [cachePath, name]) (jsResolve cwd [cachePath]) = true := by
  have hnabs : strStartsWith name "/" = false := by
    rcases hd : name.data with _ | ⟨c, cs⟩
    · exact absurd (Or.inl (string_eq_of_data (by simp [hd]))) h1
    · have hc : ¬c = '/' := fun hcc => hns c (by rw [hd]; exact List.mem_cons_self c cs) hcc
      unfold strStartsWith
      rw [hd]
      simp [List.isPrefixOf]
      intro hh
      exact hc hh.symm
  unfold jsResolve
  simp only [List.foldl_cons, List.foldl_nil, hnabs, Bool.false_eq_true, if_false]
  generalize (if strStartsWith cachePath "/" = true then cachePath
    else cwd ++ "/" ++ cachePath) = A
  have hsplit : splitSlash (A ++ "/" ++ name) = splitSlash A ++ [name] := by
    unfold splitSlash
    have hdata : (A ++ "/" ++ name).data = A.data ++ '/' :: name.data := by
      rw [String.data_append, String.data_append]
      simp
    rw [hdata, splitSlashAux_append name.data hns A.data []]
  rw [hsplit, normSegsAux_append name h1 h3]
  rcases hL : normSegsAux (splitSlash A) [] with _ | ⟨x, xs⟩
  · refine strStartsWith_of_data name.data ?_
    rw [String.data_append, String.data_append]
    simp [joinSegs]
  · rw [joinSegs_append (x :: xs) name (by simp)]
    refine strStartsWith_of_data ('/' :: name.data) ?_
    rw [String.data_append, String.data_append, String.data_append, String.data_append]
    simp

/-- Specialization to the names `handleSongRequest` builds: for every track
id, the derived save path sits under the resolved cache root. -/
theorem savePath_under_root (cwd cachePath sid : String) :
    strStartsWith (jsResolve cwd [cachePath, sanitizeId sid ++ ".mp3"])
      (jsResolve cwd [cachePath]) = true := by
  have hlen : (sanitizeId sid ++ ".mp3").data.length = (sanitizeId sid).data.length + 4 := by
    rw [String.data_append]
    simp
  apply jsResolve_under_root
  · intro c hc
    rw [String.data_append] at hc
    rcases List.mem_append.mp hc with h | h
    · intro hslash
      have hfc : isIdChar c = true := by
        have : c ∈ (sanitizeId sid).data := h
        simp only [sanitizeId] at this
        exact (List.mem_filter.mp this).2
      subst hslash
      exact absurd hfc (by decide)
    · intro hslash
      subst hslash
      exact absurd h (by decide)
  · rintro (h | h)
    · have hd := congrArg String.data h
      rw [hd] at hlen
      simp at hlen
    · have hd := congrArg String.data h
      rw [hd] at hlen
      simp at hlen
  · intro h
    have hd := congrArg String.data h
    rw [hd] at hlen
    simp at hlen

theorem jsResolve_ne_empty (cwd : String) (parts : List String) :
    ¬jsResolve cwd parts = "" := by
  intro h
  have hd := congrArg String.data h
  unfold jsResolve at hd
  rw [String.data_append] at hd
  simp at hd

/-- C5 counterexample: the source sanitizer keeps hyphens, so the claim's
"alphanumeric-only" sanitized id is false — id `"12-34"` sanitizes to itself,
is accepted (no validation error) and the download proceeds to a path
containing the hyphen. -/
theorem sanitizeId_not_alphanumeric_only :
    sanitizeId "12-34" = "12-34" ∧
    ¬sanitizeId "12-34" = "" ∧
    ("12-34".data.all isAlphanumChar) = false ∧
    (fetchSong ⟨"/cache", 1⟩
        ⟨fun _ => false, some ⟨"http://u", 320000, 0⟩, fun _ => false, false, 99, "/"⟩
        [] [] ⟨"12-34", "n", "a"⟩).1 = .downloaded "/cache/12-34.mp3" := by decide

/-- C5 (amended): the download path is derived deterministically from a
sanitized track id that keeps exactly ASCII letters, digits and hyphens; an
id that sanitizes to the empty string is a validation error (reported, no
download, no table change, never silently coerced to a path); and the
resolved absolute save path always verifies as falling under the resolved
cache root — the check of line 376 is evaluated before the download branch
and can only pass. -/
theorem sanitize_path_spec (config : PluginConfig) (env : FetchEnv)
    (downloadLocks : List String) (rows : List MusicCache) (song : Song) (u : SongUrl) :
    ((sanitizeId song.id).data.all isIdChar = true) ∧
    (env.urlInfo = some u → ¬u.url = "" → sanitizeId song.id = "" →
      fetchSong config env downloadLocks rows song = (.invalidId, rows)) ∧
    (strStartsWith (jsResolve env.cwd [config.cachePath, sanitizeId song.id ++ ".mp3"])
      (jsResolve env.cwd [config.cachePath]) = true) ∧
    (∀ p rows2, fetchSong config env downloadLocks rows song = (.downloaded p, rows2) →
      p = jsResolve env.cwd [config.cachePath, sanitizeId song.id ++ ".mp3"]) := by
  refine ⟨?_, ?_, savePath_under_root env.cwd config.cachePath song.id, ?_⟩
  · show ((song.id.data.filter isIdChar).all isIdChar) = true
    rw [List.all_eq_true]
    intro c hc
    exact (List.mem_filter.mp hc).2
  · intro hurl hu hsid
    unfold fetchSong
    rw [hurl]
    have hbeq : (u.url == "") = false := by
      simpa using hu
    simp [hbeq, hsid]
  · intro p rows2 h
    unfold fetchSong at h
    split at h
    · simp at h
    · split at h
      · simp at h
      · split at h
        · simp at h
        · split at h
          · simp at h
          · split at h
            · simp at h
            · split at h
              · simp at h
              · have := congrArg Prod.fst h
                simp at this
                exact this.symm

/-- Witness for `sanitize_path_spec`: an id of pure punctuation sanitizes to
the empty string and is rejected as a validation error. -/
theorem sanitize_path_spec_witness :
    ((sanitizeId "!!").data.all isIdChar = true) ∧
    fetchSong ⟨"/cache", 1⟩
        ⟨fun _ => false, some ⟨"http://u", 320000, 0⟩, fun _ => false, false, 99, "/"⟩
        [] [] ⟨"!!", "n", "a"⟩ = (.invalidId, []) :=
  ⟨(sanitize_path_spec ⟨"/cache", 1⟩
      ⟨fun _ => false, some ⟨"http://u", 320000, 0⟩, fun _ => false, false, 99, "/"⟩
      [] [] ⟨"!!", "n", "a"⟩ ⟨"http://u", 320000, 0⟩).1,
   (sanitize_path_spec ⟨"/cache", 1⟩
      ⟨fun _ => false, some ⟨"http://u", 320000, 0⟩, fun _ => false, false, 99, "/"⟩
      [] [] ⟨"!!", "n", "a"⟩ ⟨"http://u", 320000, 0⟩).2.1 rfl (by decide) (by decide)⟩

theorem lookupRow_map_set (data : MusicCache) :
    ∀ rows : List MusicCache, rows.any (fun r => r.id == data.id) = true →
      lookupRow (rows.map (fun r => if r.id == data.id then data else r)) data.id =
        some data := by
  intro rows
  induction rows with
  | nil => intro h; simp at h
  | cons r t ih =>
    intro h
    by_cases hid : r.id == data.id
    · simp only [List.map_cons, if_pos hid]
      unfold lookupRow
      rw [List.filter_cons, if_pos (by simp)]
      rfl
    · have ht : t.any (fun r => r.id == data.id) = true := by
        simpa [hid] using h
      simp only [List.map_cons, if_neg hid]
      unfold lookupRow at ih ⊢
      rw [List.filter_cons, if_neg (by simpa using hid)]
      exact ih ht

theorem lookupRow_append_new (data : MusicCache) :
    ∀ rows : List MusicCache, rows.any (fun r => r.id == data.id) = false →
      lookupRow (rows ++ [data]) data.id = some data := by
  intro rows
  induction rows with
  | nil =>
    intro _
    unfold lookupRow
    rw [List.nil_append, List.filter_cons, if_pos (by simp)]
    rfl
  | cons r t ih =>
    intro h
    simp only [List.any_cons, Bool.or_eq_false_iff] at h
    unfold lookupRow at ih ⊢
    rw [List.cons_append, List.filter_cons, if_neg (by simp [h.1])]
    exact ih h.2

theorem lookupRow_recordDownload (rows : List MusicCache) (data : MusicCache) :
    lookupRow (recordDownload rows data) data.id = some data := by
  unfold recordDownload
  by_cases hany : rows.any (fun r => r.id == data.id)
  · rw [if_pos hany]
    exact lookupRow_map_set data rows hany
  · rw [if_neg hany]
    exact lookupRow_append_new data rows (by simpa using hany)

theorem lookupRow_invalidate (id : String) (c : MusicCache) :
    ∀ rows : List MusicCache, lookupRow rows id = some c →
      lookupRow (invalidateRow rows id) id =
        some { c with cached := false, cachePath := none } := by
  intro rows
  induction rows with
  | nil => intro h; simp [lookupRow] at h
  | cons r t ih =>
    intro h
    by_cases hid : (r.id == id) = true
    · unfold lookupRow at h
      rw [List.filter_cons, if_pos hid] at h
      have hcr : r = c := by simpa using h
      unfold invalidateRow lookupRow
      rw [List.map_cons, if_pos hid, List.filter_cons, if_pos (by exact hid)]
      rw [hcr]
      rfl
    · unfold lookupRow at h ⊢
      rw [List.filter_cons, if_neg hid] at h
      unfold invalidateRow at ih ⊢
      rw [List.map_cons, if_neg hid, List.filter_cons, if_neg (by exact hid)]
      exact ih h

/-- C8 (claim): a cached row whose blob file no longer exists is treated as a
miss exactly once — the row's cached flag is cleared and its path nulled in
the table, the request proceeds as a normal fresh fetch (succeeding rather
than failing, under the usual success side-conditions), and the next request
for the id is a plain cache hit on the re-downloaded blob. -/
theorem staleCacheHit_miss_once (config : PluginConfig) (env : FetchEnv)
    (downloadLocks : List String) (rows : List MusicCache) (song : Song)
    (c : MusicCache) (p : String) (u : SongUrl)
    (hl : lookupRow rows song.id = some c) (hc : c.cached = true)
    (hp : c.cachePath = some p) (hpne : ¬p = "") (hfs : env.fsExists p = false)
    (hurl : env.urlInfo = some u) (hu : ¬u.url = "")
    (hsid : ¬sanitizeId song.id = "")
    (hlock : downloadLocks.contains (sanitizeId song.id) = false)
    (hdl : env.downloadFails = false) :
    handleSongRequest config env downloadLocks rows song =
      fetchSong config env downloadLocks (invalidateRow rows song.id) song ∧
    lookupRow (invalidateRow rows song.id) song.id =
      some { c with cached := false, cachePath := none } ∧
    (handleSongRequest config env downloadLocks rows song).1 =
      .downloaded (jsResolve env.cwd [config.cachePath, sanitizeId song.id ++ ".mp3"]) ∧
    (∀ (env2 : FetchEnv) (locks2 : List String),
      env2.fsExists (jsResolve env.cwd [config.cachePath, sanitizeId song.id ++ ".mp3"]) =
        true →
      handleSongRequest config env2 locks2
          (handleSongRequest config env downloadLocks rows song).2 song =
        (.servedFromCache (jsResolve env.cwd [config.cachePath, sanitizeId song.id ++ ".mp3"]),
          (handleSongRequest config env downloadLocks rows song).2)) := by
  have hpbeq : (p == "") = false := by simpa using hpne
  have hstep : handleSongRequest config env downloadLocks rows song =
      fetchSong config env downloadLocks (invalidateRow rows song.id) song := by
    unfold handleSongRequest
    rw [hl]
    simp [hc, hp, hpbeq, hfs]
  have hurlbeq : (u.url == "") = false := by simpa using hu
  have hsidbeq : (sanitizeId song.id == "") = false := by simpa using hsid
  have hfetch : fetchSong config env downloadLocks (invalidateRow rows song.id) song =
      (.downloaded (jsResolve env.cwd [config.cachePath, sanitizeId song.id ++ ".mp3"]),
        recordDownload
          (cleanOldCache env.evictFails (invalidateRow rows song.id) u.size
            (config.cacheMaxSize * 1024 * 1024)).table
          ⟨song.id, song.name, song.artist, u.url, true,
            some (jsResolve env.cwd [config.cachePath, sanitizeId song.id ++ ".mp3"]),
            u.size, env.now, u.br⟩) := by
    have hmem : sanitizeId song.id ∉ downloadLocks := by simpa using hlock
    unfold fetchSong
    rw [hurl]
    simp [hurlbeq, hsidbeq, hmem, hdl, savePath_under_root]
  refine ⟨hstep, lookupRow_invalidate song.id c rows hl, ?_, ?_⟩
  · rw [hstep, hfetch]
  · intro env2 locks2 hfs2
    rw [hstep, hfetch]
    have hlook2 : lookupRow
        (recordDownload
          (cleanOldCache env.evictFails (invalidateRow rows song.id) u.size
            (config.cacheMaxSize * 1024 * 1024)).table
          ⟨song.id, song.name, song.artist, u.url, true,
            some (jsResolve env.cwd [config.cachePath, sanitizeId song.id ++ ".mp3"]),
            u.size, env.now, u.br⟩) song.id =
        some ⟨song.id, song.name, song.artist, u.url, true,
          some (jsResolve env.cwd [config.cachePath, sanitizeId song.id ++ ".mp3"]),
          u.size, env.now, u.br⟩ :=
      lookupRow_recordDownload _ _
    have hsne : (jsResolve env.cwd [config.cachePath, sanitizeId song.id ++ ".mp3"] == "") =
        false := by
      simpa using jsResolve_ne_empty env.cwd [config.cachePath, sanitizeId song.id ++ ".mp3"]
    unfold handleSongRequest
    rw [hlook2]
    simp [hsne, hfs2]

/-- Witness for `staleCacheHit_miss_once`: a concrete stale row is invalidated,
re-downloaded and then served from cache on the next request. -/
theorem staleCacheHit_miss_once_witness :
    (lookupRow [⟨"42", "n", "a", "u", true, some "/cache/42.mp3", 5, 1, 320⟩] "42" =
      some ⟨"42", "n", "a", "u", true, some "/cache/42.mp3", 5, 1, 320⟩) ∧
    ((handleSongRequest ⟨"/cache", 1⟩
        ⟨fun _ => false, some ⟨"http://u", 320000, 3⟩, fun _ => false, false, 99, "/"⟩
        [] [⟨"42", "n", "a", "u", true, some "/cache/42.mp3", 5, 1, 320⟩]
        ⟨"42", "song", "artist"⟩).1 =
      .downloaded (jsResolve "/" ["/cache", sanitizeId "42" ++ ".mp3"])) ∧
    (handleSongRequest ⟨"/cache", 1⟩
        ⟨fun _ => true, none, fun _ => false, false, 0, "/"⟩ []
        (handleSongRequest ⟨"/cache", 1⟩
          ⟨fun _ => false, some ⟨"http://u", 320000, 3⟩, fun _ => false, false, 99, "/"⟩
          [] [⟨"42", "n", "a", "u", true, some "/cache/42.mp3", 5, 1, 320⟩]
          ⟨"42", "song", "artist"⟩).2 ⟨"42", "song", "artist"⟩ =
      (.servedFromCache (jsResolve "/" ["/cache", sanitizeId "42" ++ ".mp3"]),
        (handleSongRequest ⟨"/cache", 1⟩
          ⟨fun _ => false, some ⟨"http://u", 320000, 3⟩, fun _ => false, false, 99, "/"⟩
          [] [⟨"42", "n", "a", "u", true, some "/cache/42.mp3", 5, 1, 320⟩]
          ⟨"42", "song", "artist"⟩).2)) :=
  ⟨by decide,
   (staleCacheHit_miss_once ⟨"/cache", 1⟩
      ⟨fun _ => false, some ⟨"http://u", 320000, 3⟩, fun _ => false, false, 99, "/"⟩
      [] [⟨"42", "n", "a", "u", true, some "/cache/42.mp3", 5, 1, 320⟩]
      ⟨"42", "song", "artist"⟩
      ⟨"42", "n", "a", "u", true, some "/cache/42.mp3", 5, 1, 320⟩ "/cache/42.mp3"
      ⟨"http://u", 320000, 3⟩
      (by decide) rfl rfl (by decide) rfl rfl (by decide) (by decide) rfl rfl).2.2.1,
   (staleCacheHit_miss_once ⟨"/cache", 1⟩
      ⟨fun _ => false, some ⟨"http://u", 320000, 3⟩, fun _ => false, false, 99, "/"⟩
      [] [⟨"42", "n", "a", "u", true, some "/cache/42.mp3", 5, 1, 320⟩]
      ⟨"42", "song", "artist"⟩
      ⟨"42", "n", "a", "u", true, some "/cache/42.mp3", 5, 1, 320⟩ "/cache/42.mp3"
      ⟨"http://u", 320000, 3⟩
      (by decide) rfl rfl (by decide) rfl rfl (by decide) (by decide) rfl rfl).2.2.2
      ⟨fun _ => true, none, fun _ => false, false, 0, "/"⟩ [] (by decide)⟩

/-- The loop invariant of `powMod`: with reduced arguments it computes
`r * b ^ e` modulo `m`. -/
theorem powModAux_spec (m : Nat) (hm : 1 < m) :
    ∀ e b r, b < m → r < m → powModAux m b e r = (r * b ^ e) % m := by
  intro e
  induction e using Nat.strong_induction_on with
  | _ e ih =>
    intro b r hb hr
    rw [powModAux]
    by_cases h0 : e = 0
    · subst h0
      simp [Nat.mod_eq_of_lt hr]
    · rw [dif_neg h0]
      have hdiv : e / 2 < e := Nat.div_lt_self (Nat.pos_of_ne_zero h0) (by omega)
      have hb2 : b * b % m < m := Nat.mod_lt _ (by omega)
      have hr2 : (if e % 2 = 1 then r * b % m else r) < m := by
        split
        · exact Nat.mod_lt _ (by omega)
        · exact hr
      rw [ih (e / 2) hdiv _ _ hb2 hr2]
      by_cases hpar : e % 2 = 1
      · rw [if_pos hpar]
        conv_rhs => rw [← Nat.div_add_mod e 2, hpar]
        rw [pow_add, pow_mul, pow_one]
        have heq : Nat.ModEq m ((r * b % m) * (b * b % m) ^ (e / 2))
            ((r * b) * (b * b) ^ (e / 2)) :=
          Nat.ModEq.mul (Nat.mod_modEq (r * b) m) ((Nat.mod_modEq (b * b) m).pow (e / 2))
        rw [show (r * b) * (b * b) ^ (e / 2) = r * ((b ^ 2) ^ (e / 2) * b) from by ring] at heq
        exact heq
      · rw [if_neg hpar]
        have hpar0 : e % 2 = 0 := by omega
        conv_rhs => rw [← Nat.div_add_mod e 2, hpar0]
        rw [Nat.add_zero, pow_mul]
        have heq : Nat.ModEq m (r * (b * b % m) ^ (e / 2)) (r * (b * b) ^ (e / 2)) :=
          Nat.ModEq.mul (Nat.ModEq.refl r) ((Nat.mod_modEq (b * b) m).pow (e / 2))
        rw [show r * (b * b) ^ (e / 2) = r * (b ^ 2) ^ (e / 2) from by ring] at heq
        exact heq

/-- Function `powMod` computes modular exponentiation (for a modulus at least 2: the
source loop returns `1` for `exp = 0` even when `m = 1`, matching JS). -/
theorem powMod_correct (b e m : Nat) (hm : 1 < m) : powMod b e m = b ^ e % m := by
  unfold powMod
  rw [powModAux_spec m hm e (b % m) 1 (Nat.mod_lt _ (by omega)) (by omega)]
  rw [one_mul, ← Nat.pow_mod]

theorem toHexAux_length :
    ∀ (k : Nat), ∀ n, n < 16 ^ k → ∀ acc : List Char,
      (toHexAux n acc).length ≤ k + acc.length := by
  intro k
  induction k with
  | zero =>
    intro n h acc
    have hn : n = 0 := by simpa using h
    rw [toHexAux, dif_pos hn]
    omega
  | succ k ih =>
    intro n h acc
    by_cases h0 : n = 0
    · rw [toHexAux, dif_pos h0]
      omega
    · rw [toHexAux, dif_neg h0]
      have hlt : n / 16 < 16 ^ k := by
        rw [Nat.div_lt_iff_lt_mul (by omega : 0 < 16)]
        calc n < 16 ^ (k + 1) := h
          _ = 16 ^ k * 16 := by rw [pow_succ]
      have := ih (n / 16) hlt (hexDigit (n % 16) :: acc)
      simp only [List.length_cons] at this
      omega

theorem toHex_length_le (n k : Nat) (hk : 0 < k) (h : n < 16 ^ k) :
    (toHex n).length ≤ k := by
  unfold toHex
  split
  · simpa using hk
  · have := toHexAux_length k n h []
    simpa using this

theorem padStart_length (s : String) (len : Nat) (c : Char) (h : s.length ≤ len) :
    (padStart s len c).length = len := by
  unfold padStart
  rw [String.length_append]
  show (List.replicate (len - s.length) c).length + s.length = len
  rw [List.length_replicate]
  omega

theorem netEaseModulus_big : 1 < netEaseModulus := by decide

theorem netEaseModulus_hex_width : netEaseModulus < 16 ^ 256 := by decide

/-- The encrypted secret is always exactly 256 hex digits. -/
theorem rsaEncrypt_length (text : String) : (rsaEncrypt text).length = 256 := by
  unfold rsaEncrypt
  apply padStart_length
  apply toHex_length_le _ _ (by omega)
  calc powMod (beNat (utf8Bytes (String.mk text.data.reverse)))
        netEaseExponent netEaseModulus
      = beNat (utf8Bytes (String.mk text.data.reverse)) ^ netEaseExponent % netEaseModulus :=
        powMod_correct _ _ _ netEaseModulus_big
    _ < netEaseModulus := Nat.mod_lt _ (by have := netEaseModulus_big; omega)
    _ < 16 ^ 256 := netEaseModulus_hex_width

theorem secKeyOf_length (rands : List (Fin 62)) :
    (secKeyOf rands).length = rands.length := by
  show (rands.map _).length = rands.length
  exact List.length_map _ _

theorem secKeyOf_chars (rands : List (Fin 62)) :
    ∀ c ∈ (secKeyOf rands).data, c ∈ weapiAlphabet.data := by
  intro c hc
  obtain ⟨i, _, rfl⟩ := List.mem_map.mp hc
  have hlen : weapiAlphabet.data.length = 62 := rfl
  have hi : i.val < weapiAlphabet.data.length := by
    rw [hlen]
    exact i.isLt
  rw [List.getD_eq_getElem weapiAlphabet.data 'a' hi]
  exact List.getElem_mem hi

/-- C9 (claim): the request-envelope encoder is exactly the transform the
spec fixes — a 16-character secret drawn from the alphanumeric alphabet, the
fixed-IV 128-bit-CBC cipher applied twice (hardcoded shared secret, then the
random secret) to the serialized payload, and the secret separately encrypted
by modular exponentiation of the byte-reversed secret's big integer with the
fixed modulus and exponent, left-padded to 256 hex digits; two form-encoded
fields. -/
theorem weapi_envelope_spec (cipher : String → String → String → String → String)
    (text : String) (rands : List (Fin 62)) (h16 : rands.length = 16) :
    (secKeyOf rands).length = 16 ∧
    (∀ c ∈ (secKeyOf rands).data, c ∈ weapiAlphabet.data) ∧
    weapi cipher text (secKeyOf rands) = weapiSpecModel cipher text (secKeyOf rands) ∧
    (rsaEncrypt (secKeyOf rands)).length = 256 := by
  refine ⟨by rw [secKeyOf_length, h16], secKeyOf_chars rands, ?_, rsaEncrypt_length _⟩
  unfold weapi weapiSpecModel aesEncrypt rsaEncrypt
  rw [powMod_correct _ _ _ netEaseModulus_big]

/-- Witness for `weapi_envelope_spec` at a concrete draw and cipher. -/
theorem weapi_envelope_spec_witness :
    (List.replicate 16 (0 : Fin 62)).length = 16 ∧
    weapi (fun _ _ _ t => t) "x" (secKeyOf (List.replicate 16 0)) =
      weapiSpecModel (fun _ _ _ t => t) "x" (secKeyOf (List.replicate 16 0)) :=
  ⟨by simp,
   (weapi_envelope_spec (fun _ _ _ t => t) "x" (List.replicate 16 0) (by simp)).2.2.1⟩

end MusicPlayerNcm
